import Mathlib

/-!
Verification development for the Indian-startup news curation pipeline.

Shallow embedding of the curation core of the repository:
`content_curator.py` (article normalisation, relevance scoring,
classification, keyword extraction, extractive summarisation, report
generation), the collector-side relevance scorer of `news_collector.py`,
and the diversity selector that `main.py` invokes (modelled from the
specification, as its implementation is not part of the sources).

Modelling conventions: Python strings become `String` / `List Char`
(lower-casing maps `Char.toLower` over the characters), Python floats
become `ℚ`, `datetime` values become integer timestamps, the mutable
`processed_urls` set becomes an explicitly threaded `Finset String`,
and Python's stable `sorted` becomes a stable insertion sort.
-/

set_option maxHeartbeats 1000000
set_option maxRecDepth 10000

/-- Lower-cased character list of a string (models Python `str.lower()`). -/
def lc (s : String) : List Char := s.data.map Char.toLower

/-- Boolean substring test on character lists (models Python `needle in hay`). -/
def containsSub (needle : List Char) : List Char → Bool
  | [] => needle.isEmpty
  | c :: rest => needle.isPrefixOf (c :: rest) || containsSub needle rest

/-- Fuel-driven helper for the non-overlapping substring count; the fuel is
always instantiated with the length of the haystack. -/
def countOccsFuel (needle : List Char) : Nat → List Char → Nat
  | 0, _ => 0
  | _, [] => 0
  | fuel + 1, c :: rest =>
    if needle.isPrefixOf (c :: rest) then
      1 + countOccsFuel needle fuel ((c :: rest).drop needle.length)
    else
      countOccsFuel needle fuel rest

/-- Number of non-overlapping occurrences of `needle` in `hay`, scanning left
to right (models Python `hay.count(needle)` for non-empty needles). -/
def countOccs (needle hay : List Char) : Nat := countOccsFuel needle hay.length hay

/-- Stable insertion used by `sortBy`. -/
def insertBy {α : Type} (f : α → α → Bool) (a : α) : List α → List α
  | [] => [a]
  | b :: bs => if f a b then a :: b :: bs else b :: insertBy f a bs

/-- Insertion sort.  With a reflexive total comparator this models Python's
stable `sorted`: an element is inserted in front of the first element of the
already-sorted (later) part that it does not strictly follow. -/
def sortBy {α : Type} (f : α → α → Bool) : List α → List α
  | [] => []
  | a :: as => insertBy f a (sortBy f as)

/-- Python `' '.join`. -/
def joinSpace : List String → String
  | [] => ""
  | [s] => s
  | s :: rest => s ++ " " ++ joinSpace rest

/-- Whitespace stripping at both ends (models Python `str.strip`). -/
def stripChars (l : List Char) : List Char :=
  ((l.dropWhile Char.isWhitespace).reverse.dropWhile Char.isWhitespace).reverse

/-- Split a character list at every character satisfying `p`; the pieces keep
their original order and may be empty (callers discard empty pieces, which
makes splitting at each single separator equivalent to `re.split` on a
one-or-more separator class). -/
def splitOnPred (p : Char → Bool) : List Char → List (List Char)
  | [] => [[]]
  | c :: rest =>
    if p c then [] :: splitOnPred p rest
    else
      match splitOnPred p rest with
      | [] => [[c]]
      | g :: gs => (c :: g) :: gs

/-- Sentence separators used by `_split_into_sentences` (the class `[.!?]`). -/
def isSentenceSep (c : Char) : Bool := c = '.' || c = '!' || c = '?'

/-- Increment the count of `k` in an insertion-ordered histogram (models
counting into a Python dict, whose iteration order is insertion order). -/
def bump : List (String × Nat) → String → List (String × Nat)
  | [], k => [(k, 1)]
  | (k', c) :: rest, k => if k' = k then (k', c + 1) :: rest else (k', c) :: bump rest k

namespace ContentCurator

/-- Keyword table returned by `_load_startup_keywords` (50 entries). -/
def startup_keywords : List String :=
  ["startup", "startups", "entrepreneur", "entrepreneurship", "venture capital",
   "vc", "funding", "investment", "investor", "seed funding", "series a",
   "series b", "series c", "ipo", "unicorn", "decacorn", "valuation",
   "fintech", "edtech", "healthtech", "agritech", "foodtech", "mobility",
   "e-commerce", "saas", "b2b", "b2c", "marketplace", "platform",
   "innovation", "technology", "digital", "mobile app", "artificial intelligence",
   "machine learning", "blockchain", "cryptocurrency", "IoT", "AR", "VR",
   "incubator", "accelerator", "mentor", "bootstrap", "pivot", "scale",
   "growth hacking", "product market fit", "mvp", "minimum viable product"]

/-- Keyword table returned by `_load_indian_terms` (103 entries, `noida`
listed twice exactly as in the source). -/
def indian_startup_terms : List String :=
  ["india", "indian", "mumbai", "delhi", "bangalore", "bengaluru",
   "hyderabad", "chennai", "pune", "kolkata", "ahmedabad", "surat",
   "jaipur", "lucknow", "kanpur", "nagpur", "indore", "thane",
   "bhopal", "visakhapatnam", "pimpri", "patna", "vadodara",
   "ghaziabad", "ludhiana", "agra", "nashik", "faridabad",
   "meerut", "rajkot", "kalyan", "vasai", "varanasi", "srinagar",
   "aurangabad", "dhanbad", "amritsar", "navi mumbai", "allahabad",
   "howrah", "gwalior", "jabalpur", "coimbatore", "vijayawada",
   "jodhpur", "madurai", "raipur", "kota", "guwahati", "chandigarh",
   "solapur", "hubli", "tiruchirappalli", "bareilly", "mysore",
   "tiruppur", "gurgaon", "noida", "bhubaneswar", "salem",
   "mira bhayandar", "thiruvananthapuram", "bhiwandi", "saharanpur",
   "gorakhpur", "guntur", "bikaner", "amravati", "noida", "jamshedpur",
   "bhilai", "warangal", "cuttack", "firozabad", "kochi", "bhavnagar",
   "dehradun", "durgapur", "asansol", "rourkela", "nanded", "kolhapur",
   "ajmer", "akola", "gulbarga", "jamnagar", "ujjain", "loni",
   "siliguri", "jhansi", "ulhasnagar", "nellore", "jammu", "sangli miraj kupwad",
   "belgaum", "mangalore", "ambattur", "tirunelveli", "malegaon",
   "gaya", "jalgaon", "udaipur", "maheshtala"]

/-- Category tables returned by `_load_category_keywords`, in the source's
insertion order. -/
def category_keywords : List (String × List String) :=
  [("fintech",
    ["fintech", "financial technology", "payments", "digital payments",
     "upi", "wallet", "neobank", "lending", "credit", "insurance",
     "insurtech", "wealthtech", "robo advisor", "cryptocurrency",
     "blockchain", "digital banking", "payment gateway", "pos",
     "point of sale", "merchant", "acquirer", "settlement"]),
   ("edtech",
    ["edtech", "education technology", "e-learning", "online learning",
     "mooc", "lms", "learning management", "upskilling", "reskilling",
     "skill development", "test prep", "coaching", "tutoring",
     "educational content", "gamification", "adaptive learning"]),
   ("healthtech",
    ["healthtech", "telemedicine", "digital health", "health tech",
     "medical technology", "diagnostics", "healthcare", "telehealth",
     "medical devices", "pharma", "biotechnology", "wellness",
     "mental health", "fitness", "nutrition", "medtech"]),
   ("ecommerce",
    ["e-commerce", "ecommerce", "online retail", "marketplace",
     "shopping", "consumer", "d2c", "direct to consumer",
     "retail tech", "fashion", "beauty", "electronics",
     "home decor", "furniture", "grocery", "food delivery"]),
   ("mobility",
    ["mobility", "transportation", "logistics", "supply chain",
     "delivery", "ride sharing", "cab", "taxi", "auto",
     "bike taxi", "electric vehicle", "ev", "autonomous",
     "fleet management", "last mile", "warehousing"]),
   ("agritech",
    ["agritech", "agriculture technology", "farming", "precision agriculture",
     "farm tech", "rural", "farmer", "crop", "livestock",
     "agricultural", "food security", "supply chain agriculture"]),
   ("proptech",
    ["proptech", "real estate", "property", "housing", "rental",
     "commercial real estate", "construction tech", "smart city",
     "urban planning", "facility management"]),
   ("enterprise",
    ["enterprise", "b2b", "business to business", "saas",
     "software as a service", "erp", "crm", "hr tech",
     "hrtech", "payroll", "compliance", "automation",
     "productivity", "collaboration", "workflow"])]

/-- The `Article` dataclass. -/
structure Article where
  title : String
  content : String
  url : String
  source : String
  published_date : Int
  summary : String
  relevance_score : ℚ
  categories : List String
  keywords : List String
deriving DecidableEq

/-- Default article record, used only as the default of `List.getD`. -/
def default_article : Article :=
  { title := "", content := "", url := "", source := "", published_date := 0,
    summary := "", relevance_score := 0, categories := [], keywords := [] }

/-- Raw input record of `process_articles`.  A missing key yields the empty
string, as with the source's `raw_article.get(key, '')`; the date string is
abstracted to an already-parsed timestamp (`some t`) or an absent/unparseable
one (`none`), since `_parse_date` falls back to the current time on failure. -/
structure RawArticle where
  title : String
  content : String
  url : String
  source : String
  published_date : Option Int
deriving DecidableEq

/-- Abstraction of `_parse_date`: an unparseable or missing date falls back to
the current time `now`, and a date parse failure never rejects an article. -/
def parse_date (now : Int) : Option Int → Int
  | none => now
  | some t => t

/-- Embedding of `ContentCuratorAgent._calculate_relevance_score`. -/
def calculate_relevance_score (title content : String) : ℚ :=
  let text := lc (title ++ " " ++ content)
  let startup_score : ℕ := startup_keywords.foldl
    (fun s k => if containsSub (lc k) text then s + countOccs (lc k) text else s) 0
  let india_score : ℕ := indian_startup_terms.foldl
    (fun s t => if containsSub (lc t) text then s + countOccs (lc t) text else s) 0
  let max_startup_score : ℕ := startup_keywords.length * 3
  let max_india_score : ℕ := indian_startup_terms.length * 2
  let normalized_startup : ℚ :=
    if 0 < max_startup_score then min ((startup_score : ℚ) / (max_startup_score : ℚ)) 1 else 0
  let normalized_india : ℚ :=
    if 0 < max_india_score then min ((india_score : ℚ) / (max_india_score : ℚ)) 1 else 0
  let final_score := normalized_startup * 0.7 + normalized_india * 0.3
  min final_score 1

/-- Relevance score exactly as worded in the specification:
`0.7 * min(startup_count_sum / (|startup_table| * 3), 1) +
 0.3 * min(india_count_sum / (|india_table| * 2), 1)`, each count sum adding
the number of (non-overlapping) substring occurrences of each keyword. -/
def relevance_formula (title content : String) : ℚ :=
  let text := lc (title ++ " " ++ content)
  let startup_sum : ℕ := (startup_keywords.map fun k => countOccs (lc k) text).sum
  let india_sum : ℕ := (indian_startup_terms.map fun t => countOccs (lc t) text).sum
  0.7 * min ((startup_sum : ℚ) / ((startup_keywords.length : ℚ) * 3)) 1
    + 0.3 * min ((india_sum : ℚ) / ((indian_startup_terms.length : ℚ) * 2)) 1

/-- Embedding of `_extract_keywords`; Python's order-scrambling
`list(set(keywords))` is modelled as order-preserving deduplication. -/
def extract_keywords (title content : String) : List String :=
  let text := lc (title ++ " " ++ content)
  ((startup_keywords.filter fun k => containsSub (lc k) text)
    ++ (indian_startup_terms.filter fun t => containsSub (lc t) text)).dedup

/-- Total substring-occurrence count of one category's keyword table in the
lower-cased text, as accumulated by `_classify_article`. -/
def category_score (text : List Char) (kws : List String) : ℕ :=
  kws.foldl (fun s k => if containsSub (lc k) text then s + countOccs (lc k) text else s) 0

/-- Embedding of `_classify_article`: a category is appended when its keyword
count reaches 2; an article matching no category is classified `general`. -/
def classify_article (title content : String) : List String :=
  let text := lc (title ++ " " ++ content)
  let categories := category_keywords.filterMap
    (fun p => if 2 ≤ category_score text p.2 then some p.1 else none)
  if categories = [] then ["general"] else categories

/-- Embedding of `_split_into_sentences`: split on `[.!?]`, strip whitespace,
discard empty fragments. -/
def split_into_sentences (text : String) : List String :=
  (((splitOnPred isSentenceSep text.data).map fun l => String.mk (stripChars l)).filter
    fun s => s != "")

/-- Per-sentence score of `_generate_summary`: +2 per startup keyword present,
+1 per location term present, plus the positional bonus `3 - i` for the first
three sentences. -/
def sentence_score (i : ℕ) (s : String) : ℕ :=
  let sentence_lower := lc s
  let startup_part := startup_keywords.foldl
    (fun sc k => if containsSub (lc k) sentence_lower then sc + 2 else sc) 0
  let india_part := indian_startup_terms.foldl
    (fun sc t => if containsSub (lc t) sentence_lower then sc + 1 else sc) 0
  startup_part + india_part + (if i < 3 then 3 - i else 0)

/-- Embedding of `_generate_summary` (its `try` block cannot fail in this pure
model, so the 200-character fallback is unreachable).  Python's stable
`sorted(..., reverse=True)` is the stable insertion sort `sortBy`. -/
def generate_summary (content : String) : String :=
  let sentences := split_into_sentences content
  if sentences.length ≤ 3 then content
  else
    let sentence_scores := sentences.enum.map fun p => (p.1, sentence_score p.1 p.2)
    let top_sentences := (sortBy (fun x y => decide (y.2 ≤ x.2)) sentence_scores).take 3
    let top_sorted := sortBy (fun x y => decide (x.1 ≤ y.1)) top_sentences
    joinSpace (top_sorted.map fun p => sentences.getD p.1 "")

/-- Summary selection exactly as worded in the specification: the three
highest-scoring sentences, ties broken by original order (sentence `i` is
selected when fewer than three sentences `j` strictly precede it in the
priority order "higher score, or equal score and smaller index"), re-sorted
into original document order and joined with a single space. -/
def summary_spec (content : String) : String :=
  let sentences := split_into_sentences content
  let n := sentences.length
  if n ≤ 3 then content
  else
    let score := fun i => sentence_score i (sentences.getD i "")
    let selected := (List.range n).filter fun i =>
      decide (((List.range n).filter fun j =>
        decide (score i < score j ∨ (score j = score i ∧ j < i))).length < 3)
    joinSpace (selected.map fun i => sentences.getD i "")

/-- Embedding of `ContentCuratorAgent.process_articles`.  The mutable
`self.processed_urls` set is threaded explicitly and `now` stands for
`datetime.now()`; the per-article `try` never fails in this pure model, and
the three `continue` branches (seen URL, missing essential field, relevance
below 0.3) skip the record without touching any state. -/
def process_articles (now : Int) (seen : Finset String) :
    List RawArticle → List Article × Finset String
  | [] => ([], seen)
  | r :: rest =>
    if r.url ∈ seen then process_articles now seen rest
    else if r.title = "" ∨ r.content = "" ∨ r.url = "" then process_articles now seen rest
    else if calculate_relevance_score r.title r.content < 0.3 then
      process_articles now seen rest
    else
      let article : Article :=
        { title := r.title
          content := r.content
          url := r.url
          source := r.source
          published_date := parse_date now r.published_date
          summary := generate_summary r.content
          relevance_score := calculate_relevance_score r.title r.content
          categories := classify_article r.title r.content
          keywords := extract_keywords r.title r.content }
      let next := process_articles now (insert r.url seen) rest
      (article :: next.1, next.2)

/-- Ranking score of `rank_articles`: `0.7 * relevance + 0.3 * recency`,
`recency = max(0, 1 - days_old / 30)` with `days_old` the floor-divided
day difference, as `timedelta.days` computes it. -/
def ranking_score (now : Int) (a : Article) : ℚ :=
  let days_old : Int := (now - a.published_date).fdiv 86400
  let recency_score : ℚ := max 0 (1 - (days_old : ℚ) / 30)
  a.relevance_score * 0.7 + recency_score * 0.3

/-- Embedding of `rank_articles` (stable descending sort by ranking score). -/
def rank_articles (now : Int) (articles : List Article) : List Article :=
  sortBy (fun x y => decide (ranking_score now y ≤ ranking_score now x)) articles

/-- Embedding of `get_trending_keywords`. -/
def get_trending_keywords (articles : List Article) (limit : ℕ) : List (String × ℕ) :=
  let keyword_counts := articles.foldl (fun acc a => a.keywords.foldl bump acc) []
  (sortBy (fun x y => decide (y.2 ≤ x.2)) keyword_counts).take limit

/-- Round-half-to-even integer rounding, the semantics of Python `round`. -/
def round_half_even (q : ℚ) : Int :=
  let f := ⌊q⌋
  if q - f < 1 / 2 then f
  else if 1 / 2 < q - f then f + 1
  else if Even f then f else f + 1

/-- Python `round(x, 3)` over the rational model of floats. -/
def round3 (q : ℚ) : ℚ := (round_half_even (q * 1000) : ℚ) / 1000

/-- Aggregate report produced by `generate_content_report` in the non-empty
case; `top_articles` keeps the projected fields (title, url, relevance score,
categories) of the five top-ranked articles. -/
structure ContentReport where
  total_articles : ℕ
  average_relevance_score : ℚ
  category_distribution : List (String × ℕ)
  source_distribution : List (String × ℕ)
  trending_keywords : List (String × ℕ)
  earliest : Int
  latest : Int
  top_articles : List (String × String × ℚ × List String)

/-- Result of `generate_content_report`: either the dictionary holding only an
`error` entry, or the aggregate report. -/
inductive ReportResult where
  | error (msg : String)
  | report (r : ContentReport)

/-- Embedding of `generate_content_report`. -/
def generate_content_report (now : Int) (articles : List Article) : ReportResult :=
  match articles with
  | [] => .error "No articles to analyze"
  | a :: rest =>
    let arts := a :: rest
    let total_articles := arts.length
    let avg_relevance : ℚ := (arts.map fun x => x.relevance_score).sum / (total_articles : ℚ)
    let category_counts := arts.foldl (fun acc x => x.categories.foldl bump acc) []
    let source_counts := arts.foldl (fun acc x => bump acc x.source) []
    let dates := arts.map fun x => x.published_date
    .report
      { total_articles := total_articles
        average_relevance_score := round3 avg_relevance
        category_distribution := category_counts
        source_distribution := source_counts
        trending_keywords := get_trending_keywords arts 10
        earliest := dates.foldl min a.published_date
        latest := dates.foldl max a.published_date
        top_articles := ((rank_articles now arts).take 5).map
          fun x => (x.title, x.url, x.relevance_score, x.categories) }

end ContentCurator

namespace NewsCollector

/-- Keyword table `self.startup_keywords` of `NewsCollectorAgent`. -/
def startup_keywords : List String :=
  ["startup", "startups", "funding", "investment", "investor", "venture capital",
   "series a", "series b", "series c", "seed funding", "pre-series",
   "unicorn", "decacorn", "ipo", "initial public offering",
   "fintech", "edtech", "healthtech", "foodtech", "proptech", "agritech",
   "saas", "b2b", "b2c", "d2c", "marketplace",
   "entrepreneur", "entrepreneurship", "founder", "co-founder",
   "raised", "valuation", "round", "acquisition", "merger",
   "backed", "led by", "participated", "invested"]

/-- Keyword table `self.priority_keywords` of `NewsCollectorAgent`. -/
def priority_keywords : List String :=
  ["unicorn", "ipo", "acquisition", "merger", "series a", "series b", "series c",
   "funding", "raised", "crore", "million", "billion", "valuation"]

/-- Additive keyword score: `w` points for every keyword of `ks` satisfying
`p`, each keyword contributing at most once. -/
def keyword_score (w : ℕ) (ks : List String) (p : String → Bool) : ℕ :=
  ks.foldl (fun s k => if p k then s + w else s) 0

/-- Embedding of `NewsCollectorAgent._is_startup_related`: at least two
startup keywords must occur in the lower-cased text. -/
def is_startup_related (text : String) : Bool :=
  2 ≤ keyword_score 1 startup_keywords (fun k => containsSub k.data (lc text))

/-- Embedding of `NewsCollectorAgent._calculate_relevance_score` (the
importance score of the collector): 1 point per regular keyword present,
3 points per priority keyword present, presence counted once per keyword. -/
def calculate_relevance_score (text : String) : ℕ :=
  keyword_score 1 startup_keywords (fun k => containsSub k.data (lc text))
    + keyword_score 3 priority_keywords (fun k => containsSub k.data (lc text))

end NewsCollector

namespace DiversitySelector

/-- Modelled from the spec: `curate_top_stories`, the Diversity Selector of
spec section 4.5, is absent from the sources — `main.py` only calls it — so
its input is modelled from the spec's words as a scored article carrying a
title, a source label and an importance score. -/
structure ScoredArticle where
  title : String
  source : String
  importance_score : ℚ
deriving DecidableEq

/-- Modelled from the spec: the word set of a title (whitespace-separated,
lower-cased, duplicates removed). -/
def title_words (t : String) : List (List Char) :=
  ((splitOnPred Char.isWhitespace (lc t)).filter fun w => !w.isEmpty).dedup

/-- Modelled from the spec: number of words of `ws` that also occur in the
accumulated union `accWords` of previously accepted titles' word sets. -/
def overlap_count (ws accWords : List (List Char)) : ℕ :=
  ws.countP fun w => accWords.contains w

/-- Modelled from the spec: greedy first pass of section 4.5 — iterate in
sorted order, accept an article only if fewer than 3 already-accepted
articles share its source and its title word set overlaps the union of the
accepted titles' word sets in at most 2 words, stopping once `n` accepted. -/
def greedy_pass (n : ℕ) :
    List ScoredArticle → List ScoredArticle → List (List Char) → List ScoredArticle
  | [], acc, _ => acc
  | a :: rest, acc, accWords =>
    if n ≤ acc.length then acc
    else if (acc.countP fun b => b.source == a.source) < 3 ∧
        overlap_count (title_words a.title) accWords ≤ 2 then
      greedy_pass n rest (acc ++ [a]) (accWords ++ title_words a.title)
    else
      greedy_pass n rest acc accWords

/-- Modelled from the spec: backfill second pass of section 4.5 — append the
highest-remaining-scored articles in sorted order, skipping ones already
selected, until `n` is reached; per the spec's design notes the backfill does
not re-check the per-source or overlap constraints. -/
def backfill (n : ℕ) (sorted selected : List ScoredArticle) : List ScoredArticle :=
  sorted.foldl
    (fun acc a => if n ≤ acc.length then acc else if a ∈ acc then acc else acc ++ [a])
    selected

/-- Modelled from the spec: `curate_top_stories` — stable sort by importance
score descending, greedy pass, then backfill (target count `n`, 10 by
default at the call site in `main.py`). -/
def curate_top_stories (articles : List ScoredArticle) (n : ℕ) : List ScoredArticle :=
  let sorted := sortBy (fun x y => decide (y.importance_score ≤ x.importance_score)) articles
  backfill n sorted (greedy_pass n sorted [] [])

/-- Concrete input refuting the unconditional diversity bound: four articles
from one source with pairwise disjoint one-word titles and equal scores. -/
def cap_breaking_batch : List ScoredArticle :=
  [{ title := "alpha", source := "s", importance_score := 1 },
   { title := "beta", source := "s", importance_score := 1 },
   { title := "gamma", source := "s", importance_score := 1 },
   { title := "delta", source := "s", importance_score := 1 }]

end DiversitySelector

namespace ContentCurator

/-- Raw record of spec Scenario A: body "Flipkart raises $1 billion in Series H
funding" (the title repeats the company name so that every field is present). -/
def flipkart_raw : RawArticle :=
  { title := "Flipkart"
    content := "Flipkart raises $1 billion in Series H funding"
    url := "https://example.com/flipkart"
    source := "News"
    published_date := some 0 }

/-- Raw record with no startup or India keyword at all: relevance 0, rejected. -/
def bad_raw : RawArticle :=
  { title := "t", content := "q w", url := "u", source := "s", published_date := none }

/-- Body consisting of 64 repetitions of the startup keyword `vc`; together
with the title `vc` the keyword occurs 65 times, which is exactly enough to
clear the 0.3 admission threshold (0.7 * 65 / 150 = 91/300 ≥ 0.3). -/
def vc_content : String := joinSpace (List.replicate 64 "vc")

/-- Raw record that the pipeline admits. -/
def good_raw : RawArticle :=
  { title := "vc", content := vc_content, url := "https://example.com/vc",
    source := "s", published_date := some 0 }

end ContentCurator

/-! ### Generic lemmas about the helper functions -/

theorem isPrefixOf_true_iff {l₁ l₂ : List Char} :
    l₁.isPrefixOf l₂ = true ↔ l₁ <+: l₂ := by
  induction l₁ generalizing l₂ with
  | nil => simp [List.isPrefixOf, List.nil_prefix]
  | cons a as ih =>
    cases l₂ with
    | nil => simp [List.isPrefixOf]
    | cons b bs => simp [List.isPrefixOf, List.cons_prefix_cons, ih]

theorem containsSub_true_iff {needle hay : List Char} :
    containsSub needle hay = true ↔ needle <:+: hay := by
  induction hay with
  | nil =>
    simp only [containsSub, List.isEmpty_iff]
    constructor
    · intro h; simp [h]
    · intro h; exact List.eq_nil_of_infix_nil h
  | cons c rest ih =>
    simp only [containsSub, Bool.or_eq_true, isPrefixOf_true_iff, ih,
      List.infix_cons_iff]

theorem containsSub_append_of_containsSub {needle hay : List Char} (extra : List Char)
    (h : containsSub needle hay = true) :
    containsSub needle (hay ++ extra) = true := by
  rw [containsSub_true_iff] at h ⊢
  exact h.trans ((List.prefix_append hay extra).isInfix)

theorem countOccsFuel_eq_zero_of_not_sub {needle : List Char} :
    ∀ (fuel : ℕ) (hay : List Char), containsSub needle hay = false →
      countOccsFuel needle fuel hay = 0 := by
  intro fuel
  induction fuel with
  | zero => intro hay _; cases hay <;> rfl
  | succ n ih =>
    intro hay h
    cases hay with
    | nil => rfl
    | cons c rest =>
      simp only [containsSub, Bool.or_eq_false_iff] at h
      simp only [countOccsFuel, h.1, Bool.false_eq_true, if_false]
      exact ih rest h.2

theorem countOccs_eq_zero_of_not_sub {needle hay : List Char}
    (h : containsSub needle hay = false) : countOccs needle hay = 0 :=
  countOccsFuel_eq_zero_of_not_sub hay.length hay h

/-- The guarded count accumulation of the Python loops equals the plain sum of
counts: the `if keyword in text` guard is redundant since an absent keyword
has count zero. -/
theorem foldl_count_eq_sum (f : String → List Char) (text : List Char) :
    ∀ (ks : List String) (init : ℕ),
      ks.foldl (fun s k => if containsSub (f k) text then s + countOccs (f k) text else s)
        init = init + (ks.map fun k => countOccs (f k) text).sum := by
  intro ks
  induction ks with
  | nil => intro init; simp
  | cons k rest ih =>
    intro init
    simp only [List.foldl_cons, List.map_cons, List.sum_cons]
    cases hc : containsSub (f k) text with
    | false =>
      simp only [Bool.false_eq_true, if_false, ih, countOccs_eq_zero_of_not_sub hc]
      omega
    | true =>
      simp only [if_true, ih]
      omega

theorem insertBy_perm {α : Type} (f : α → α → Bool) (a : α) :
    ∀ l : List α, List.Perm (insertBy f a l) (a :: l) := by
  intro l
  induction l with
  | nil => exact List.Perm.refl _
  | cons b bs ih =>
    simp only [insertBy]
    by_cases h : f a b = true
    · simp [h]
    · simp only [h, if_false]
      exact (ih.cons b).trans (List.Perm.swap a b bs)

theorem sortBy_perm {α : Type} (f : α → α → Bool) :
    ∀ l : List α, List.Perm (sortBy f l) l := by
  intro l
  induction l with
  | nil => exact List.Perm.refl _
  | cons a as ih => exact (insertBy_perm f a (sortBy f as)).trans (ih.cons a)

theorem mem_insertBy {α : Type} {f : α → α → Bool} {a x : α} {l : List α} :
    x ∈ insertBy f a l ↔ x = a ∨ x ∈ l := by
  rw [(insertBy_perm f a l).mem_iff, List.mem_cons]

theorem mem_sortBy {α : Type} {f : α → α → Bool} {x : α} {l : List α} :
    x ∈ sortBy f l ↔ x ∈ l := (sortBy_perm f l).mem_iff

/-! ### Relevance scoring (C2, C3) -/

/-- C2: for every article, the relevance score computed from the lower-cased
concatenation of title and body equals
`0.7 * min(startup_count_sum / (|startup_table| * 3), 1.0)
 + 0.3 * min(india_count_sum / (|india_table| * 2), 1.0)`, where each count
sum adds the substring-occurrence counts of the lexicon keywords, and
consequently the result always lies in [0, 1]. -/
theorem c2_relevance_score_formula_and_bounds :
    ∀ title content : String,
      ContentCurator.calculate_relevance_score title content
          = ContentCurator.relevance_formula title content ∧
        0 ≤ ContentCurator.calculate_relevance_score title content ∧
        ContentCurator.calculate_relevance_score title content ≤ 1 := by
  intro title content
  have hs : 0 < ContentCurator.startup_keywords.length * 3 := by decide
  have hi : 0 < ContentCurator.indian_startup_terms.length * 2 := by decide
  simp only [ContentCurator.calculate_relevance_score, ContentCurator.relevance_formula]
  rw [foldl_count_eq_sum, foldl_count_eq_sum, if_pos hs, if_pos hi]
  simp only [Nat.zero_add, Nat.cast_mul, Nat.cast_ofNat]
  set S : ℚ := ((ContentCurator.startup_keywords.map fun k =>
    countOccs (lc k) (lc (title ++ " " ++ content))).sum : ℚ) with hS
  set I : ℚ := ((ContentCurator.indian_startup_terms.map fun t =>
    countOccs (lc t) (lc (title ++ " " ++ content))).sum : ℚ) with hI
  have hS0 : 0 ≤ S := hS ▸ Nat.cast_nonneg _
  have hI0 : 0 ≤ I := hI ▸ Nat.cast_nonneg _
  have hd1 : (0 : ℚ) ≤ (ContentCurator.startup_keywords.length : ℚ) * 3 :=
    mul_nonneg (Nat.cast_nonneg _) (by norm_num)
  have hd2 : (0 : ℚ) ≤ (ContentCurator.indian_startup_terms.length : ℚ) * 2 :=
    mul_nonneg (Nat.cast_nonneg _) (by norm_num)
  set A : ℚ := min (S / ((ContentCurator.startup_keywords.length : ℚ) * 3)) 1 with hA
  set B : ℚ := min (I / ((ContentCurator.indian_startup_terms.length : ℚ) * 2)) 1 with hB
  have hA0 : 0 ≤ A := le_min (div_nonneg hS0 hd1) zero_le_one
  have hB0 : 0 ≤ B := le_min (div_nonneg hI0 hd2) zero_le_one
  have hA1 : A ≤ 1 := min_le_right _ _
  have hB1 : B ≤ 1 := min_le_right _ _
  have hsum : A * 0.7 + B * 0.3 ≤ 1 := by nlinarith
  have hmin : min (A * 0.7 + B * 0.3) 1 = A * 0.7 + B * 0.3 := min_eq_left hsum
  refine ⟨by rw [hmin]; ring, ?_, ?_⟩
  · rw [hmin]; nlinarith
  · rw [hmin]; exact hsum

/-- C3 (evaluation of the code at the scenario input): the Scenario-A article
does contain two startup-lexicon keywords (`funding`, and `AR` inside
"Flipkart"), yet its relevance score is 7/500 = 0.014, far below the 0.3
admission threshold, so the pipeline rejects it and returns no article. -/
theorem c3_flipkart_scenario_rejected_by_code :
    2 ≤ (ContentCurator.extract_keywords ContentCurator.flipkart_raw.title
          ContentCurator.flipkart_raw.content).length ∧
    ContentCurator.calculate_relevance_score ContentCurator.flipkart_raw.title
        ContentCurator.flipkart_raw.content = 7 / 500 ∧
    ContentCurator.calculate_relevance_score ContentCurator.flipkart_raw.title
        ContentCurator.flipkart_raw.content < 0.3 ∧
    ContentCurator.process_articles 0 ∅ [ContentCurator.flipkart_raw] = ([], ∅) := by
  with_unfolding_all decide

/-! ### Collector importance score (C8) -/

theorem keyword_score_eq_countP (w : ℕ) (p : String → Bool) :
    ∀ (ks : List String) (init : ℕ),
      ks.foldl (fun s k => if p k then s + w else s) init = init + w * ks.countP p := by
  intro ks
  induction ks with
  | nil => intro init; simp
  | cons k rest ih =>
    intro init
    simp only [List.foldl_cons, List.countP_cons]
    cases hp : p k with
    | false => simp only [Bool.false_eq_true, if_false, ih, Nat.add_zero]
    | true => simp only [if_true, ih, Nat.mul_add, Nat.mul_one]; omega

theorem countP_lt_of_pointwise_and_witness {l : List String} {p q : String → Bool}
    (hm : ∀ a ∈ l, p a = true → q a = true) {a₀ : String} (ha : a₀ ∈ l)
    (hp : p a₀ = false) (hq : q a₀ = true) : l.countP p < l.countP q := by
  induction l with
  | nil => cases ha
  | cons b bs ih =>
    simp only [List.countP_cons]
    rcases List.mem_cons.mp ha with hb | hb
    · subst hb
      have hmono2 : bs.countP p ≤ bs.countP q :=
        List.countP_mono_left fun a hx => hm a (List.mem_cons_of_mem _ hx)
      simp only [hp, hq, Bool.false_eq_true, if_false, if_true, Nat.add_zero]
      exact Nat.lt_succ_of_le hmono2
    · have hstep := ih (fun a hx => hm a (List.mem_cons_of_mem _ hx)) hb
      have hhead : (if p b = true then (1 : ℕ) else 0) ≤ (if q b = true then 1 else 0) := by
        cases hpb : p b with
        | false => cases hqb : q b <;> simp
        | true => simp [hm b (List.mem_cons_self _ _) hpb]
      omega

/-- C8: appending the funding keyword `unicorn` to any text that does not
already contain it strictly increases the collector's importance score;
presence is counted once per keyword, so every other keyword's contribution
can only stay or grow. -/
theorem c8_unicorn_strictly_increases_importance :
    ∀ text : String,
      containsSub "unicorn".data (lc text) = false →
      NewsCollector.calculate_relevance_score text
        < NewsCollector.calculate_relevance_score (text ++ "unicorn") := by
  intro text hno
  have hlc : lc (text ++ "unicorn") = lc text ++ "unicorn".data := by
    simp only [lc, String.data_append, List.map_append]
    congr 1
  simp only [NewsCollector.calculate_relevance_score, NewsCollector.keyword_score, hlc,
    keyword_score_eq_countP, Nat.zero_add]
  have hmono : ∀ k : String, containsSub k.data (lc text) = true →
      containsSub k.data (lc text ++ "unicorn".data) = true := fun k hk =>
    containsSub_append_of_containsSub _ hk
  have huni : containsSub "unicorn".data (lc text ++ "unicorn".data) = true := by
    rw [containsSub_true_iff]
    exact (List.suffix_append (lc text) "unicorn".data).isInfix
  have h1 : NewsCollector.startup_keywords.countP
        (fun k => containsSub k.data (lc text))
      < NewsCollector.startup_keywords.countP
        (fun k => containsSub k.data (lc text ++ "unicorn".data)) :=
    countP_lt_of_pointwise_and_witness (fun a _ h => hmono a h)
      (by decide : "unicorn" ∈ NewsCollector.startup_keywords) hno huni
  have h2 : NewsCollector.priority_keywords.countP
        (fun k => containsSub k.data (lc text))
      ≤ NewsCollector.priority_keywords.countP
        (fun k => containsSub k.data (lc text ++ "unicorn".data)) :=
    List.countP_mono_left fun a _ h => hmono a h
  have hdata : ("unicorn".data : List Char) = ['u', 'n', 'i', 'c', 'o', 'r', 'n'] := rfl
  rw [hdata] at h1 h2
  omega

/-- Witness for C8 at the concrete text "hello". -/
theorem c8_witness :
    containsSub "unicorn".data (lc "hello") = false ∧
    NewsCollector.calculate_relevance_score "hello"
      < NewsCollector.calculate_relevance_score ("hello" ++ "unicorn") :=
  ⟨by decide, c8_unicorn_strictly_increases_importance "hello" (by decide)⟩

/-! ### The ingestion pipeline (C5, C6, C7, C9) -/

/-- A record that is skipped (missing field or relevance below threshold)
leaves both the output and the seen-URL state untouched, from any state. -/
theorem process_articles_skip (now : Int) (seen : Finset String)
    (r : ContentCurator.RawArticle) (rest : List ContentCurator.RawArticle)
    (h : r.title = "" ∨ r.content = "" ∨ r.url = "" ∨
      ContentCurator.calculate_relevance_score r.title r.content < 0.3) :
    ContentCurator.process_articles now seen (r :: rest)
      = ContentCurator.process_articles now seen rest := by
  by_cases h1 : r.url ∈ seen
  · simp only [ContentCurator.process_articles, if_pos h1]
  · by_cases h2 : r.title = "" ∨ r.content = "" ∨ r.url = ""
    · simp only [ContentCurator.process_articles, if_neg h1, if_pos h2]
    · have h3 : ContentCurator.calculate_relevance_score r.title r.content < 0.3 := by
        tauto
      simp only [ContentCurator.process_articles, if_neg h1, if_neg h2, if_pos h3]

/-- C7: the pipeline is a total function on well-formed record collections:
an empty input yields an empty output and unchanged state with no error, and
a record missing its title, body or url, or scoring below the 0.3 relevance
threshold, is silently skipped without affecting the rest of the batch. -/
theorem c7_pipeline_total_skips_and_empty :
    (∀ (now : Int) (seen : Finset String),
      ContentCurator.process_articles now seen [] = ([], seen)) ∧
    (∀ (now : Int) (seen : Finset String)
        (l1 l2 : List ContentCurator.RawArticle) (r : ContentCurator.RawArticle),
      (r.title = "" ∨ r.content = "" ∨ r.url = "" ∨
        ContentCurator.calculate_relevance_score r.title r.content < 0.3) →
      ContentCurator.process_articles now seen (l1 ++ r :: l2)
        = ContentCurator.process_articles now seen (l1 ++ l2)) := by
  constructor
  · intro now seen; rfl
  · intro now seen l1 l2 r h
    induction l1 generalizing seen with
    | nil => exact process_articles_skip now seen r l2 h
    | cons x l1 ih =>
      show ContentCurator.process_articles now seen (x :: (l1 ++ r :: l2))
        = ContentCurator.process_articles now seen (x :: (l1 ++ l2))
      by_cases hx1 : x.url ∈ seen
      · simp only [ContentCurator.process_articles, if_pos hx1]
        exact ih seen
      · by_cases hx2 : x.title = "" ∨ x.content = "" ∨ x.url = ""
        · simp only [ContentCurator.process_articles, if_neg hx1, if_pos hx2]
          exact ih seen
        · by_cases hx3 : ContentCurator.calculate_relevance_score x.title x.content < 0.3
          · simp only [ContentCurator.process_articles, if_neg hx1, if_neg hx2, if_pos hx3]
            exact ih seen
          · simp only [ContentCurator.process_articles, if_neg hx1, if_neg hx2, if_neg hx3]
            rw [ih (insert x.url seen)]

/-- Witness for C7: a record with an empty title is skipped. -/
theorem c7_witness :
    ContentCurator.process_articles 0 ∅
        ([] ++ { title := "", content := "c", url := "u", source := "s",
                 published_date := none } :: [])
      = ContentCurator.process_articles 0 ∅ ([] ++ []) :=
  c7_pipeline_total_skips_and_empty.2 0 ∅ [] []
    { title := "", content := "c", url := "u", source := "s", published_date := none }
    (Or.inl rfl)

/-- C5 (amended): a duplicated record adds nothing — the batch `[r, r]`
produces the same articles as `[r]`, reprocessing `r` in a later call on the
resulting state produces nothing, and the duplicated batch contains at most
one article with `r`'s URL. -/
theorem c5_amended_duplicate_occurrence_is_noop :
    ∀ (now : Int) (seen : Finset String) (r : ContentCurator.RawArticle),
      (ContentCurator.process_articles now seen [r, r]).1
          = (ContentCurator.process_articles now seen [r]).1 ∧
        (ContentCurator.process_articles now
          (ContentCurator.process_articles now seen [r]).2 [r]).1 = [] ∧
        ((ContentCurator.process_articles now seen [r, r]).1.countP
          fun a => a.url == r.url) ≤ 1 := by
  intro now seen r
  by_cases h1 : r.url ∈ seen
  · have hs : ContentCurator.process_articles now seen [r, r]
        = ContentCurator.process_articles now seen [r] := by
      simp only [ContentCurator.process_articles, if_pos h1]
    have hone : ContentCurator.process_articles now seen [r] = ([], seen) := by
      simp only [ContentCurator.process_articles, if_pos h1]
    refine ⟨by rw [hs], ?_, ?_⟩
    · rw [hone]
      simp only [ContentCurator.process_articles, if_pos h1]
    · rw [hs, hone]; simp
  · by_cases h2 : r.title = "" ∨ r.content = "" ∨ r.url = ""
    · have hs : ContentCurator.process_articles now seen [r, r]
          = ContentCurator.process_articles now seen [r] := by
        simp only [ContentCurator.process_articles, if_neg h1, if_pos h2]
      have hone : ContentCurator.process_articles now seen [r] = ([], seen) := by
        simp only [ContentCurator.process_articles, if_neg h1, if_pos h2]
      refine ⟨by rw [hs], ?_, ?_⟩
      · rw [hone]
        simp only [ContentCurator.process_articles, if_neg h1, if_pos h2]
      · rw [hs, hone]; simp
    · by_cases h3 : ContentCurator.calculate_relevance_score r.title r.content < 0.3
      · have hs : ContentCurator.process_articles now seen [r, r]
            = ContentCurator.process_articles now seen [r] := by
          simp only [ContentCurator.process_articles, if_neg h1, if_neg h2, if_pos h3]
        have hone : ContentCurator.process_articles now seen [r] = ([], seen) := by
          simp only [ContentCurator.process_articles, if_neg h1, if_neg h2, if_pos h3]
        refine ⟨by rw [hs], ?_, ?_⟩
        · rw [hone]
          simp only [ContentCurator.process_articles, if_neg h1, if_neg h2, if_pos h3]
        · rw [hs, hone]; simp
      · have hmem : r.url ∈ insert r.url seen := Finset.mem_insert_self _ _
        refine ⟨?_, ?_, ?_⟩
        · simp only [ContentCurator.process_articles, if_neg h1, if_neg h2, if_neg h3,
            if_pos hmem]
        · simp only [ContentCurator.process_articles, if_neg h1, if_neg h2, if_neg h3,
            if_pos hmem]
        · simp only [ContentCurator.process_articles, if_neg h1, if_neg h2, if_neg h3,
            if_pos hmem, List.countP_cons, List.countP_nil]
          simp

/-- Counterexample to C5 as stated: `bad_raw` (relevance score 0) processed
twice yields zero articles with its URL, not exactly one — a rejected record
is dropped both times, so "ingesting the same raw record twice yields exactly
one Article" fails for records that do not pass admission. -/
theorem c5_counterexample_rejected_record_twice :
    ¬ (((ContentCurator.process_articles 0 ∅
          [ContentCurator.bad_raw, ContentCurator.bad_raw]).1.countP
        fun a => a.url == "u") = 1) := by
  with_unfolding_all decide

/-- C9: the seen-URL state after any call equals the prior state united with
exactly the URLs of the articles returned by that call — a URL is recorded
only when its article is fully admitted, so rejected records leave the state
unchanged and are re-evaluated in full on re-submission. -/
theorem c9_seen_urls_are_returned_articles :
    (∀ (now : Int) (seen : Finset String) (raws : List ContentCurator.RawArticle),
      (ContentCurator.process_articles now seen raws).2
        = seen ∪ ((ContentCurator.process_articles now seen raws).1.map
            fun a => a.url).toFinset) ∧
    (∀ (now : Int) (seen : Finset String) (r : ContentCurator.RawArticle),
      (ContentCurator.process_articles now seen [r]).1 = [] →
      ContentCurator.process_articles now seen [r] = ([], seen)) := by
  have main : ∀ (now : Int) (raws : List ContentCurator.RawArticle) (seen : Finset String),
      (ContentCurator.process_articles now seen raws).2
        = seen ∪ ((ContentCurator.process_articles now seen raws).1.map
            fun a => a.url).toFinset := by
    intro now raws
    induction raws with
    | nil => intro seen; simp [ContentCurator.process_articles]
    | cons r rest ih =>
      intro seen
      by_cases h1 : r.url ∈ seen
      · simp only [ContentCurator.process_articles, if_pos h1]
        exact ih seen
      · by_cases h2 : r.title = "" ∨ r.content = "" ∨ r.url = ""
        · simp only [ContentCurator.process_articles, if_neg h1, if_pos h2]
          exact ih seen
        · by_cases h3 : ContentCurator.calculate_relevance_score r.title r.content < 0.3
          · simp only [ContentCurator.process_articles, if_neg h1, if_neg h2, if_pos h3]
            exact ih seen
          · simp only [ContentCurator.process_articles, if_neg h1, if_neg h2, if_neg h3,
              List.map_cons, List.toFinset_cons]
            rw [ih (insert r.url seen)]
            ext u
            simp only [Finset.mem_union, Finset.mem_insert, List.mem_toFinset]
            tauto
  refine ⟨fun now seen raws => main now raws seen, ?_⟩
  intro now seen r hnil
  have h2 := main now [r] seen
  rw [hnil] at h2
  simp only [List.map_nil, List.toFinset_nil, Finset.union_empty] at h2
  exact Prod.ext hnil h2

/-- Witness for C9: the rejected record `bad_raw` leaves the state unchanged. -/
theorem c9_witness :
    (ContentCurator.process_articles 0 ∅ [ContentCurator.bad_raw]).1 = [] ∧
    ContentCurator.process_articles 0 ∅ [ContentCurator.bad_raw] = ([], ∅) :=
  ⟨by with_unfolding_all decide,
    c9_seen_urls_are_returned_articles.2 0 ∅ ContentCurator.bad_raw
      (by with_unfolding_all decide)⟩

theorem classify_article_ne_nil (title content : String) :
    ContentCurator.classify_article title content ≠ [] := by
  simp only [ContentCurator.classify_article]
  split
  · simp
  · assumption

theorem classify_article_mem_iff (title content cat : String) :
    cat ∈ ContentCurator.classify_article title content ↔
      ((∃ kws, (cat, kws) ∈ ContentCurator.category_keywords ∧
          2 ≤ ContentCurator.category_score (lc (title ++ " " ++ content)) kws) ∨
       (cat = "general" ∧ ∀ p ∈ ContentCurator.category_keywords,
          ContentCurator.category_score (lc (title ++ " " ++ content)) p.2 < 2)) := by
  simp only [ContentCurator.classify_article]
  set text := lc (title ++ " " ++ content) with htext
  set cats := ContentCurator.category_keywords.filterMap
    (fun p => if 2 ≤ ContentCurator.category_score text p.2 then some p.1 else none)
    with hcats
  by_cases hnil : cats = []
  · rw [if_pos hnil]
    have hall : ∀ p ∈ ContentCurator.category_keywords,
        ContentCurator.category_score text p.2 < 2 := by
      intro p hp
      by_contra hge
      push_neg at hge
      have hin : p.1 ∈ cats := by
        rw [hcats]
        exact List.mem_filterMap.mpr ⟨p, hp, by rw [if_pos hge]⟩
      rw [hnil] at hin
      cases hin
    constructor
    · intro h
      have hcat : cat = "general" := List.mem_singleton.mp h
      exact Or.inr ⟨hcat, hall⟩
    · rintro (⟨kws, hmem, hge⟩ | ⟨rfl, -⟩)
      · exact absurd hge (not_le.mpr (hall (cat, kws) hmem))
      · exact List.mem_singleton.mpr rfl
  · rw [if_neg hnil]
    constructor
    · intro h
      rw [hcats] at h
      rcases List.mem_filterMap.mp h with ⟨p, hp, hsome⟩
      by_cases hge : 2 ≤ ContentCurator.category_score text p.2
      · rw [if_pos hge] at hsome
        have hfst : p.1 = cat := Option.some.inj hsome
        refine Or.inl ⟨p.2, ?_, hge⟩
        have hpair : (cat, p.2) = p := by
          cases p
          simp only at hfst
          rw [hfst]
        rw [hpair]
        exact hp
      · rw [if_neg hge] at hsome
        cases hsome
    · rintro (⟨kws, hmem, hge⟩ | ⟨rfl, hall⟩)
      · rw [hcats]
        exact List.mem_filterMap.mpr ⟨(cat, kws), hmem, by rw [if_pos hge]⟩
      · exfalso
        apply hnil
        rw [hcats]
        refine List.filterMap_eq_nil_iff.mpr fun p hp => ?_
        rw [if_neg (not_le.mpr (hall p hp))]

/-- Every article in the pipeline output carries fields computed by the
scorer, classifier, summariser and keyword extractor from its own title and
body, and passed the 0.3 relevance threshold. -/
theorem mem_process_articles (now : Int) (seen : Finset String)
    (raws : List ContentCurator.RawArticle) :
    ∀ a ∈ (ContentCurator.process_articles now seen raws).1,
      a.relevance_score = ContentCurator.calculate_relevance_score a.title a.content ∧
      (0.3 : ℚ) ≤ a.relevance_score ∧
      a.categories = ContentCurator.classify_article a.title a.content ∧
      a.summary = ContentCurator.generate_summary a.content ∧
      a.keywords = ContentCurator.extract_keywords a.title a.content := by
  induction raws generalizing seen with
  | nil =>
    intro a ha
    simp only [ContentCurator.process_articles, List.not_mem_nil] at ha
  | cons r rest ih =>
    intro a ha
    by_cases h1 : r.url ∈ seen
    · simp only [ContentCurator.process_articles, if_pos h1] at ha
      exact ih seen a ha
    · by_cases h2 : r.title = "" ∨ r.content = "" ∨ r.url = ""
      · simp only [ContentCurator.process_articles, if_neg h1, if_pos h2] at ha
        exact ih seen a ha
      · by_cases h3 : ContentCurator.calculate_relevance_score r.title r.content < 0.3
        · simp only [ContentCurator.process_articles, if_neg h1, if_neg h2, if_pos h3] at ha
          exact ih seen a ha
        · simp only [ContentCurator.process_articles, if_neg h1, if_neg h2, if_neg h3,
            List.mem_cons] at ha
          rcases ha with rfl | ha
          · exact ⟨rfl, not_lt.mp h3, rfl, rfl, rfl⟩
          · exact ih (insert r.url seen) a ha

/-- C6: every article returned by the pipeline has a non-empty category list;
a named category is present exactly when its keyword table scores at least 2
on the lower-cased title+body, and the fallback `general` is present exactly
when every category's score is below 2. -/
theorem c6_categories_nonempty_and_threshold :
    ∀ (now : Int) (seen : Finset String) (raws : List ContentCurator.RawArticle)
      (a : ContentCurator.Article),
      a ∈ (ContentCurator.process_articles now seen raws).1 →
      a.categories ≠ [] ∧
      ∀ cat, cat ∈ a.categories ↔
        ((∃ kws, (cat, kws) ∈ ContentCurator.category_keywords ∧
            2 ≤ ContentCurator.category_score (lc (a.title ++ " " ++ a.content)) kws) ∨
         (cat = "general" ∧ ∀ p ∈ ContentCurator.category_keywords,
            ContentCurator.category_score (lc (a.title ++ " " ++ a.content)) p.2 < 2)) := by
  intro now seen raws a ha
  obtain ⟨-, -, hcat, -, -⟩ := mem_process_articles now seen raws a ha
  rw [hcat]
  exact ⟨classify_article_ne_nil _ _, fun cat => classify_article_mem_iff _ _ cat⟩

/-- Witness for C6: the admitted `good_raw` article has non-empty categories. -/
theorem c6_witness :
    ((ContentCurator.process_articles 0 ∅ [ContentCurator.good_raw]).1.getD 0
        ContentCurator.default_article).categories ≠ [] :=
  (c6_categories_nonempty_and_threshold 0 ∅ [ContentCurator.good_raw]
    ((ContentCurator.process_articles 0 ∅ [ContentCurator.good_raw]).1.getD 0
      ContentCurator.default_article)
    (by with_unfolding_all decide)).1

/-- C10: the report generator returns the error-only result exactly on an
empty batch; on any non-empty batch it returns the aggregate report, whose
total count is the batch size and whose average relevance is the rounded mean
of the relevance scores. -/
theorem c10_report_error_iff_empty :
    (∀ now : Int, ContentCurator.generate_content_report now []
        = ContentCurator.ReportResult.error "No articles to analyze") ∧
    (∀ (now : Int) (a : ContentCurator.Article) (rest : List ContentCurator.Article),
      ∃ rep : ContentCurator.ContentReport,
        ContentCurator.generate_content_report now (a :: rest)
            = ContentCurator.ReportResult.report rep ∧
          rep.total_articles = (a :: rest).length ∧
          rep.average_relevance_score = ContentCurator.round3
            (((a :: rest).map fun x => x.relevance_score).sum / (((a :: rest).length : ℕ) : ℚ))) :=
  ⟨fun _ => rfl, fun _ _ _ => ⟨_, rfl, rfl, rfl⟩⟩

/-! ### Diversity selector (C1) -/

theorem greedy_pass_length_le (n : ℕ) :
    ∀ (l acc : List DiversitySelector.ScoredArticle) (accWords : List (List Char)),
      acc.length ≤ n → (DiversitySelector.greedy_pass n l acc accWords).length ≤ n := by
  intro l
  induction l with
  | nil => intro acc accWords h; exact h
  | cons a rest ih =>
    intro acc accWords h
    simp only [DiversitySelector.greedy_pass]
    by_cases h1 : n ≤ acc.length
    · rw [if_pos h1]; exact h
    · rw [if_neg h1]
      by_cases h2 : (acc.countP fun b => b.source == a.source) < 3 ∧
          DiversitySelector.overlap_count (DiversitySelector.title_words a.title) accWords ≤ 2
      · rw [if_pos h2]
        apply ih
        rw [List.length_append]
        simp only [List.length_singleton]
        omega
      · rw [if_neg h2]; exact ih acc accWords h

theorem greedy_pass_source_cap (n : ℕ) (src : String) :
    ∀ (l acc : List DiversitySelector.ScoredArticle) (accWords : List (List Char)),
      (acc.countP fun b => b.source == src) ≤ 3 →
      ((DiversitySelector.greedy_pass n l acc accWords).countP
        fun b => b.source == src) ≤ 3 := by
  intro l
  induction l with
  | nil => intro acc accWords h; exact h
  | cons a rest ih =>
    intro acc accWords h
    simp only [DiversitySelector.greedy_pass]
    by_cases h1 : n ≤ acc.length
    · rw [if_pos h1]; exact h
    · rw [if_neg h1]
      by_cases h2 : (acc.countP fun b => b.source == a.source) < 3 ∧
          DiversitySelector.overlap_count (DiversitySelector.title_words a.title) accWords ≤ 2
      · rw [if_pos h2]
        apply ih
        rw [List.countP_append]
        by_cases hsrc : (a.source == src) = true
        · have heq : a.source = src := beq_iff_eq.mp hsrc
          have hcnt : (([a] : List DiversitySelector.ScoredArticle).countP
              fun b => b.source == src) = 1 := by
            simp [List.countP_cons, hsrc]
          rw [hcnt]
          have hlt := h2.1
          rw [heq] at hlt
          omega
        · have hcnt : (([a] : List DiversitySelector.ScoredArticle).countP
              fun b => b.source == src) = 0 := by
            simp [List.countP_cons, hsrc]
          rw [hcnt]
          omega
      · rw [if_neg h2]; exact ih acc accWords h

theorem backfill_length_le (n : ℕ) :
    ∀ (l acc : List DiversitySelector.ScoredArticle),
      acc.length ≤ n → (DiversitySelector.backfill n l acc).length ≤ n := by
  intro l
  induction l with
  | nil => intro acc h; exact h
  | cons a rest ih =>
    intro acc h
    simp only [DiversitySelector.backfill, List.foldl_cons]
    by_cases h1 : n ≤ acc.length
    · rw [if_pos h1]; exact ih acc h
    · rw [if_neg h1]
      by_cases h2 : a ∈ acc
      · rw [if_pos h2]; exact ih acc h
      · rw [if_neg h2]
        apply ih
        rw [List.length_append]
        simp only [List.length_singleton]
        omega

/-- C1 (amended): the modelled selector is exactly the greedy pass followed
by the backfill pass, its output never exceeds the target count, and the
greedy pass on its own respects the 3-per-source cap; the backfill pass does
not re-check the cap (see the counterexample), so the unconditional bound of
the original claim fails. -/
theorem c1_amended_selector_greedy_cap_and_size :
    ∀ (articles : List DiversitySelector.ScoredArticle) (n : ℕ),
      DiversitySelector.curate_top_stories articles n
          = DiversitySelector.backfill n
              (sortBy (fun x y => decide (y.importance_score ≤ x.importance_score)) articles)
              (DiversitySelector.greedy_pass n
                (sortBy (fun x y => decide (y.importance_score ≤ x.importance_score)) articles)
                [] []) ∧
        (DiversitySelector.curate_top_stories articles n).length ≤ n ∧
        ∀ src : String,
          ((DiversitySelector.greedy_pass n
              (sortBy (fun x y => decide (y.importance_score ≤ x.importance_score)) articles)
              [] []).countP fun b => b.source == src) ≤ 3 := by
  intro articles n
  refine ⟨rfl, ?_, ?_⟩
  · exact backfill_length_le n _ _
      (greedy_pass_length_le n _ [] [] (by simp))
  · intro src
    exact greedy_pass_source_cap n src _ [] [] (by simp)

/-- Counterexample to C1 as stated: four equal-scored articles from one
source — the greedy pass accepts three, the backfill appends the fourth, so
the output has size 4 with the same source appearing 4 > 3 times. -/
theorem c1_counterexample_backfill_breaks_cap :
    4 ≤ (DiversitySelector.curate_top_stories DiversitySelector.cap_breaking_batch 4).length ∧
    ¬ (((DiversitySelector.curate_top_stories DiversitySelector.cap_breaking_batch 4).countP
        fun b => b.source == "s") ≤ 3) := by
  with_unfolding_all decide

/-! ### Summariser selection (C4) -/

theorem insertBy_pairwise_scoreOrder (x : ℕ × ℕ) :
    ∀ l : List (ℕ × ℕ),
      l.Pairwise (fun a b => b.2 < a.2 ∨ (a.2 = b.2 ∧ a.1 < b.1)) →
      (∀ y ∈ l, x.1 < y.1) →
      (insertBy (fun a b => decide (b.2 ≤ a.2)) x l).Pairwise
        (fun a b => b.2 < a.2 ∨ (a.2 = b.2 ∧ a.1 < b.1)) := by
  intro l
  induction l with
  | nil =>
    intro _ _
    simp [insertBy]
  | cons y ys ih =>
    intro hp hidx
    rw [List.pairwise_cons] at hp
    obtain ⟨hy, hys⟩ := hp
    simp only [insertBy]
    by_cases hc : y.2 ≤ x.2
    · rw [if_pos (by simpa using hc)]
      rw [List.pairwise_cons]
      refine ⟨?_, List.pairwise_cons.mpr ⟨hy, hys⟩⟩
      intro z hz
      rcases List.mem_cons.mp hz with rfl | hz'
      · have := hidx z (List.mem_cons_self _ _)
        omega
      · have h1 := hy z hz'
        have h2 := hidx z (List.mem_cons_of_mem _ hz')
        omega
    · rw [if_neg (by simpa using hc)]
      rw [List.pairwise_cons]
      constructor
      · intro z hz
        rcases mem_insertBy.mp hz with rfl | hz'
        · omega
        · exact hy z hz'
      · exact ih hys fun z hz => hidx z (List.mem_cons_of_mem _ hz)

theorem sortBy_pairwise_scoreOrder :
    ∀ l : List (ℕ × ℕ), l.Pairwise (fun a b => a.1 < b.1) →
      (sortBy (fun x y => decide (y.2 ≤ x.2)) l).Pairwise
        (fun a b => b.2 < a.2 ∨ (a.2 = b.2 ∧ a.1 < b.1)) := by
  intro l
  induction l with
  | nil => intro _; simp [sortBy]
  | cons a as ih =>
    intro hp
    rw [List.pairwise_cons] at hp
    simp only [sortBy]
    exact insertBy_pairwise_scoreOrder a _ (ih hp.2)
      fun y hy => hp.1 y (mem_sortBy.mp hy)

theorem take_mem_iff_rank_lt :
    ∀ L : List (ℕ × ℕ),
      L.Pairwise (fun a b => b.2 < a.2 ∨ (a.2 = b.2 ∧ a.1 < b.1)) →
      ∀ (k : ℕ) (x : ℕ × ℕ),
        x ∈ L.take k ↔ x ∈ L ∧
          L.countP (fun y => decide (x.2 < y.2 ∨ (y.2 = x.2 ∧ y.1 < x.1))) < k := by
  intro L
  induction L with
  | nil => intro _ k x; simp
  | cons a L' ih =>
    intro hp k x
    rw [List.pairwise_cons] at hp
    obtain ⟨ha, hp'⟩ := hp
    cases k with
    | zero => simp
    | succ k =>
      simp only [List.take_succ_cons, List.mem_cons, List.countP_cons]
      by_cases hxa : x = a
      · subst hxa
        have hc0 : List.countP (fun y => decide (x.2 < y.2 ∨ (y.2 = x.2 ∧ y.1 < x.1))) L'
            = 0 := by
          rw [List.countP_eq_zero]
          intro y hy
          have := ha y hy
          simp only [decide_eq_true_eq]
          omega
        have hself : decide (x.2 < x.2 ∨ (x.2 = x.2 ∧ x.1 < x.1)) = false := by
          simp only [decide_eq_false_iff_not]
          omega
        rw [hself]
        simp only [Bool.false_eq_true, if_false, Nat.add_zero, hc0]
        simp
      · constructor
        · intro h
          rcases h with h | h
          · exact absurd h hxa
          · have hih := (ih hp' k x).mp h
            refine ⟨Or.inr hih.1, ?_⟩
            have hhead : (if decide (x.2 < a.2 ∨ (a.2 = x.2 ∧ a.1 < x.1)) = true
                then (1 : ℕ) else 0) ≤ 1 := by
              split <;> omega
            omega
        · rintro ⟨hmem, hcnt⟩
          rcases hmem with rfl | hmem
          · exact absurd rfl hxa
          · right
            apply (ih hp' k x).mpr
            refine ⟨hmem, ?_⟩
            have hax := ha x hmem
            have hheadT : decide (x.2 < a.2 ∨ (a.2 = x.2 ∧ a.1 < x.1)) = true := by
              simp only [decide_eq_true_eq]
              omega
            rw [hheadT] at hcnt
            simp only [if_true] at hcnt
            omega

theorem insertBy_pairwise_fst_le (x : ℕ × ℕ) :
    ∀ l : List (ℕ × ℕ), l.Pairwise (fun a b => a.1 ≤ b.1) →
      (insertBy (fun a b => decide (a.1 ≤ b.1)) x l).Pairwise (fun a b => a.1 ≤ b.1) := by
  intro l
  induction l with
  | nil => intro _; simp [insertBy]
  | cons y ys ih =>
    intro hp
    rw [List.pairwise_cons] at hp
    obtain ⟨hy, hys⟩ := hp
    simp only [insertBy]
    by_cases hc : x.1 ≤ y.1
    · rw [if_pos (by simpa using hc)]
      rw [List.pairwise_cons]
      refine ⟨?_, List.pairwise_cons.mpr ⟨hy, hys⟩⟩
      intro z hz
      rcases List.mem_cons.mp hz with rfl | hz'
      · exact hc
      · exact le_trans hc (hy z hz')
    · rw [if_neg (by simpa using hc)]
      rw [List.pairwise_cons]
      refine ⟨?_, ih hys⟩
      intro z hz
      rcases mem_insertBy.mp hz with rfl | hz'
      · omega
      · exact hy z hz'

theorem sortBy_pairwise_fst_le :
    ∀ l : List (ℕ × ℕ),
      (sortBy (fun x y => decide (x.1 ≤ y.1)) l).Pairwise (fun a b => a.1 ≤ b.1) := by
  intro l
  induction l with
  | nil => simp [sortBy]
  | cons a as ih => exact insertBy_pairwise_fst_le a _ ih

theorem sorted_lt_eq_of_mem_iff :
    ∀ l₁ l₂ : List ℕ, l₁.Pairwise (· < ·) → l₂.Pairwise (· < ·) →
      (∀ i, i ∈ l₁ ↔ i ∈ l₂) → l₁ = l₂ := by
  intro l₁
  induction l₁ with
  | nil =>
    intro l₂ _ _ hiff
    cases l₂ with
    | nil => rfl
    | cons b bs => exact absurd ((hiff b).mpr (List.mem_cons_self _ _)) (List.not_mem_nil b)
  | cons a l₁ ih =>
    intro l₂ h1 h2 hiff
    cases l₂ with
    | nil => exact absurd ((hiff a).mp (List.mem_cons_self _ _)) (List.not_mem_nil a)
    | cons b bs =>
      rw [List.pairwise_cons] at h1 h2
      have hab : a = b := by
        have ha2 := (hiff a).mp (List.mem_cons_self _ _)
        have hb1 := (hiff b).mpr (List.mem_cons_self _ _)
        rcases List.mem_cons.mp ha2 with h | h
        · exact h
        · rcases List.mem_cons.mp hb1 with h' | h'
          · exact h'.symm
          · have hba := h2.1 a h
            have hab' := h1.1 b h'
            omega
      subst hab
      congr 1
      apply ih bs h1.2 h2.2
      intro i
      constructor
      · intro hi
        have hmem : i ∈ a :: bs := (hiff i).mp (List.mem_cons_of_mem _ hi)
        rcases List.mem_cons.mp hmem with rfl | h
        · exact absurd (h1.1 i hi) (lt_irrefl i)
        · exact h
      · intro hi
        have hmem : i ∈ a :: l₁ := (hiff i).mpr (List.mem_cons_of_mem _ hi)
        rcases List.mem_cons.mp hmem with rfl | h
        · exact absurd (h2.1 i hi) (lt_irrefl i)
        · exact h

/-- The code's "stable sort descending by score, take 3, re-sort by index"
selects exactly the indices whose rank in the priority order "higher score,
or equal score and smaller index" is below 3, in increasing index order. -/
theorem sorted_take3_selection (n : ℕ) (s : ℕ → ℕ) :
    ((sortBy (fun x y => decide (x.1 ≤ y.1))
        ((sortBy (fun x y => decide (y.2 ≤ x.2))
          ((List.range n).map fun i => (i, s i))).take 3)).map Prod.fst)
      = (List.range n).filter fun i =>
          decide (((List.range n).filter fun j =>
            decide (s i < s j ∨ (s j = s i ∧ j < i))).length < 3) := by
  set P : List (ℕ × ℕ) := (List.range n).map fun i => (i, s i) with hP
  set L : List (ℕ × ℕ) := sortBy (fun x y => decide (y.2 ≤ x.2)) P with hL
  set T : List (ℕ × ℕ) := L.take 3 with hT
  set M : List ℕ := (sortBy (fun x y => decide (x.1 ≤ y.1)) T).map Prod.fst with hM
  have hPidx : P.Pairwise (fun a b => a.1 < b.1) := by
    rw [hP, List.pairwise_map]
    exact List.pairwise_lt_range n
  have hLsorted := sortBy_pairwise_scoreOrder P hPidx
  have hLP : List.Perm L P := sortBy_perm _ P
  have hPmem : ∀ x : ℕ × ℕ, x ∈ P ↔ x.1 < n ∧ x = (x.1, s x.1) := by
    intro x
    rw [hP, List.mem_map]
    constructor
    · rintro ⟨i, hi, rfl⟩
      exact ⟨List.mem_range.mp hi, rfl⟩
    · rintro ⟨hlt, hx⟩
      exact ⟨x.1, List.mem_range.mpr hlt, hx.symm⟩
  have hTmem : ∀ i : ℕ, (i, s i) ∈ T ↔ i < n ∧
      ((List.range n).filter fun j =>
        decide (s i < s j ∨ (s j = s i ∧ j < i))).length < 3 := by
    intro i
    rw [hT, take_mem_iff_rank_lt L hLsorted 3 (i, s i), hLP.mem_iff,
      hLP.countP_eq, hP, List.countP_map, List.countP_eq_length_filter]
    constructor
    · rintro ⟨hmem, hcnt⟩
      have := (hPmem (i, s i)).mp (hP ▸ hmem)
      exact ⟨this.1, hcnt⟩
    · rintro ⟨hlt, hcnt⟩
      refine ⟨hP ▸ (hPmem (i, s i)).mpr ⟨hlt, rfl⟩, hcnt⟩
  have hMmem : ∀ i : ℕ, i ∈ M ↔ (i, s i) ∈ T := by
    intro i
    rw [hM, List.mem_map]
    constructor
    · rintro ⟨x, hx, rfl⟩
      have hxT : x ∈ T := mem_sortBy.mp hx
      have hxL : x ∈ L := List.mem_of_mem_take hxT
      have hxP := (hPmem x).mp (hLP.mem_iff.mp hxL)
      rw [← hxP.2]
      exact hxT
    · intro hi
      exact ⟨(i, s i), mem_sortBy.mpr hi, rfl⟩
  have hMsortedLe : M.Pairwise (· ≤ ·) := by
    rw [hM, List.pairwise_map]
    exact sortBy_pairwise_fst_le T
  have hMnodup : M.Nodup := by
    have h1 : (P.map Prod.fst) = List.range n := by
      rw [hP, List.map_map]
      exact List.map_id _
    have h2 : (L.map Prod.fst).Nodup := by
      rw [(hLP.map Prod.fst).nodup_iff, h1]
      exact List.nodup_range n
    have h3 : (T.map Prod.fst).Nodup :=
      h2.sublist ((hT ▸ List.take_sublist 3 L).map Prod.fst)
    have h4 : List.Perm M (T.map Prod.fst) := by
      rw [hM]
      exact (sortBy_perm _ T).map Prod.fst
    exact h4.nodup_iff.mpr h3
  have hMsorted : M.Pairwise (· < ·) := by
    have := hMsortedLe.and hMnodup
    exact this.imp fun h => lt_of_le_of_ne h.1 h.2
  have hSsorted : ((List.range n).filter fun i =>
      decide (((List.range n).filter fun j =>
        decide (s i < s j ∨ (s j = s i ∧ j < i))).length < 3)).Pairwise (· < ·) :=
    (List.pairwise_lt_range n).filter _
  apply sorted_lt_eq_of_mem_iff M _ hMsorted hSsorted
  intro i
  rw [hMmem i, hTmem i, List.mem_filter, List.mem_range, decide_eq_true_eq]

theorem enum_map_pair_eq_range_map (sentences : List String) (f : ℕ → String → ℕ) :
    sentences.enum.map (fun p => (p.1, f p.1 p.2))
      = (List.range sentences.length).map fun i => (i, f i (sentences.getD i "")) := by
  apply List.ext_getElem
  · simp
  · intro i h1 h2
    simp only [List.getElem_map, List.getElem_enum, List.getElem_range]
    have hlen : i < sentences.length := by simpa using h1
    rw [List.getD_eq_getElem sentences "" hlen]

/-- C4: for every article body, the generated summary equals the
specification's description — the full body verbatim when there are at most
three sentences, and otherwise the three highest-scoring sentences (score =
+2 per startup keyword, +1 per location keyword, plus the positional bonus
`max(0, 3 - index)`, ties broken by original order), re-sorted into original
document order and joined with a single space. -/
theorem c4_summary_equals_spec_selection :
    ∀ content : String,
      ContentCurator.generate_summary content = ContentCurator.summary_spec content := by
  intro content
  simp only [ContentCurator.generate_summary, ContentCurator.summary_spec]
  by_cases hlen : (ContentCurator.split_into_sentences content).length ≤ 3
  · rw [if_pos hlen, if_pos hlen]
  · rw [if_neg hlen, if_neg hlen]
    rw [enum_map_pair_eq_range_map (ContentCurator.split_into_sentences content)
      ContentCurator.sentence_score]
    have hcomp : ∀ (L : List (ℕ × ℕ)),
        L.map (fun p => (ContentCurator.split_into_sentences content).getD p.1 "")
          = (L.map Prod.fst).map
              fun i => (ContentCurator.split_into_sentences content).getD i "" := by
      intro L
      rw [List.map_map]
      rfl
    rw [hcomp, sorted_take3_selection (ContentCurator.split_into_sentences content).length
      fun i => ContentCurator.sentence_score i
        ((ContentCurator.split_into_sentences content).getD i "")]
